import Mathlib

/-!
Verification development for the InfluxDB output plugin of the vgo stream
pipeline.  The embedding below follows the Go source: the `InfluxDB`
configuration struct, the pool-building `Connect`, the idempotent
`createDatabase` schema guard, the per-call Fisher-Yates permutation
produced by `rand.Perm`, and the failover `Write` loop.

External library behaviour (the InfluxDB client, `url.Parse`) is modelled
by Boolean response fields on the inputs: whether a URL parses, whether a
client builds, whether a connection's transport write succeeds, whether a
`CREATE DATABASE` query succeeds, and whether a failed write's error text
contains "database not found".
-/

namespace Influx

/-- Classification of the plugin's error returns: `configError` for a
`url.Parse` / client-construction failure inside `Connect`,
`encodingError` for a `client.NewPoint` rejection, and `poolExhausted`
for the aggregate "Could not write to any InfluxDB server in cluster". -/
inductive WError where
  | configError
  | encodingError
  | poolExhausted
deriving DecidableEq, Repr

/-- A live client connection.  The Booleans record how the external store
behaves on this connection during the modelled call: `writeOk` — the
transport write returns nil; `notFound` — when the write fails, its error
text contains "database not found"; `ensureOk` — a `CREATE DATABASE`
query on this connection succeeds. -/
structure Conn where
  writeOk : Bool
  notFound : Bool
  ensureOk : Bool
deriving DecidableEq, Repr

instance : Inhabited Conn := ⟨⟨false, false, false⟩⟩

/-- One configured URL together with the environment's response to it:
`isUDP` — `strings.HasPrefix u "udp"` holds; `parseOk` — `url.Parse`
succeeds; `buildOk` — `client.NewUDPClient` / `client.NewHTTPClient`
succeeds; `conn` — the connection the client library hands back. -/
structure URLSpec where
  isUDP : Bool
  parseOk : Bool
  buildOk : Bool
  conn : Conn
deriving DecidableEq, Repr

/-- The `InfluxDB` output struct.  The legacy single-URL string field is
modelled as an `Option` (`none` for the empty string).  `UDPPayload` is
the `udp_payload` setting; `conns` is the connection pool. -/
structure InfluxDB where
  URL : Option URLSpec
  URLs : List URLSpec
  Username : String
  Password : String
  Database : String
  UserAgent : String
  RetentionPolicy : String
  WriteConsistency : String
  Timeout : Nat
  UDPPayload : Nat
  Precision : String
  conns : List Conn
deriving DecidableEq, Repr

/-- `client.UDPPayloadSize`, the client library's default UDP payload. -/
def udpPayloadSize : Nat := 512

/-- The URL list `Connect` iterates over: the configured list with the
legacy single URL appended when present. -/
def allUrls (i : InfluxDB) : List URLSpec :=
  i.URLs ++ (match i.URL with | some u => [u] | none => [])

/-- Network-visible actions of `Connect` and `Write`, in program order:
`connectEnsure idx ok` — `createDatabase` issued at pool construction for
the URL at position `idx` (with its outcome); `recoveryEnsure idx ok` —
`createDatabase` issued by the failover loop for pool member `idx`;
`writeAttempt idx ok` — transport write invoked on pool member `idx`. -/
inductive Event where
  | connectEnsure (idx : Nat) (ok : Bool)
  | recoveryEnsure (idx : Nat) (ok : Bool)
  | writeAttempt (idx : Nat) (ok : Bool)
deriving DecidableEq, Repr

/-- `createDatabase` issues `CREATE DATABASE "<db>"` over the given
connection and reports whether the query succeeded. -/
def createDatabase (c : Conn) : Bool := c.ensureOk

/-- The body of `Connect`'s loop over the URL list, threading the current
`UDPPayload` value (the Go code mutates the field in place, and the
mutation survives a later abort) and the absolute URL index used in the
event trace.  Returns the final payload value, the trace of
`createDatabase` calls, and either the built pool or the error that
aborted the loop.  A UDP URL aborts on parse or build failure; a stream
URL aborts on build failure, while a failed `createDatabase` is logged
and merely excludes that connection. -/
def connectGo (payload : Nat) (idx : Nat) :
    List URLSpec → Nat × List Event × Except WError (List Conn)
  | [] => (payload, [], .ok [])
  | u :: rest =>
    if u.isUDP then
      if u.parseOk then
        let p' := if payload = 0 then udpPayloadSize else payload
        if u.buildOk then
          let (p2, evs, r) := connectGo p' (idx + 1) rest
          (p2, evs, r.map (u.conn :: ·))
        else (p', [], .error .configError)
      else (payload, [], .error .configError)
    else
      if u.buildOk then
        let (p2, evs, r) := connectGo payload (idx + 1) rest
        if createDatabase u.conn then
          (p2, Event.connectEnsure idx true :: evs, r.map (u.conn :: ·))
        else
          (p2, Event.connectEnsure idx false :: evs, r)
      else (payload, [], .error .configError)

/-- `Connect`: walk the URL list; on success install the new pool, on
failure return the error with the pool field untouched.  The `UDPPayload`
mutation persists either way.  (The trailing `rand.Seed` call touches
only the global generator and is not part of the struct state.) -/
def Connect (i : InfluxDB) : InfluxDB × Option WError × List Event :=
  match connectGo i.UDPPayload 0 (allUrls i) with
  | (p, evs, .error e) => ({ i with UDPPayload := p }, some e, evs)
  | (p, evs, .ok cs) => ({ i with UDPPayload := p, conns := cs }, none, evs)

/-- One metric record.  `pointOk` abstracts the external
`client.NewPoint` validation: `true` iff every field value has a
supported type, so the record encodes into a wire point. -/
structure Metric where
  name : String
  pointOk : Bool
deriving DecidableEq, Repr

/-- The encoding loop of `Write`: build a point per record, returning the
first `NewPoint` error and encoding nothing past it.  (`NewBatchPoints`
itself cannot fail here: the config carries no precision string.) -/
def encodeBatch : List Metric → Except WError (List Metric)
  | [] => .ok []
  | m :: rest =>
    if m.pointOk then
      match encodeBatch rest with
      | .error e => .error e
      | .ok ps => .ok (m :: ps)
    else .error .encodingError

/-- One step of Go's `rand.Perm` (inside-out Fisher-Yates): at step `i`
with draw `j ≤ i`, execute `m[i] = m[j]; m[j] = i` on the length-`i`
prefix `m`. -/
def fyStep (m : List Nat) (i j : Nat) : List Nat :=
  if j = i then m ++ [i] else m.set j i ++ [m.getD j 0]

/-- The first `n` steps of `rand.Perm`, with `c` the stream of raw random
draws; step `i` uses `c i % (i + 1)`, the value `Intn(i + 1)` returns. -/
def randPermAux (c : Nat → Nat) : Nat → List Nat
  | 0 => []
  | n + 1 => fyStep (randPermAux c n) n (c n % (n + 1))

/-- `rand.Perm n` for the call whose random draws are `c`. -/
def randPerm (n : Nat) (c : Nat → Nat) : List Nat := randPermAux c n

/-- The failover loop of `Write`: walk the permutation; a successful
transport write stops the walk, a failure whose error text contains
"database not found" triggers a `createDatabase` on that same connection
before moving on, any other failure just moves on.  Returns whether some
write succeeded, plus the event trace. -/
def dispatch (conns : List Conn) : List Nat → Bool × List Event
  | [] => (false, [])
  | n :: rest =>
    let c := conns.getD n default
    if c.writeOk then (true, [Event.writeAttempt n true])
    else
      let (s, evs) := dispatch conns rest
      (s, Event.writeAttempt n false ::
        (if c.notFound then Event.recoveryEnsure n (createDatabase c) :: evs else evs))

/-- The tail of `Write` after the empty-pool reconnection check: encode
the batch, draw a fresh permutation of the pool indices, and run the
failover loop; `evs0` is the trace accumulated by a reconnection. -/
def writeCore (i : InfluxDB) (c : Nat → Nat) (ms : List Metric) (evs0 : List Event) :
    InfluxDB × Option WError × List Event :=
  match encodeBatch ms with
  | .error e => (i, some e, evs0)
  | .ok _ =>
    let p := randPerm i.conns.length c
    let (s, evs) := dispatch i.conns p
    (i, if s then none else some .poolExhausted, evs0 ++ evs)

/-- `Write`: if the pool is empty, one `Connect` attempt (its error is
returned as is); then encode and dispatch. -/
def Write (i : InfluxDB) (c : Nat → Nat) (ms : List Metric) :
    InfluxDB × Option WError × List Event :=
  if i.conns.length = 0 then
    match Connect i with
    | (i', some e, evs) => (i', some e, evs)
    | (i', none, evs) => writeCore i' c ms evs
  else writeCore i c ms []

/-- Indices of the transport-write attempts in a trace, in order. -/
def attemptIdxs : List Event → List Nat
  | [] => []
  | Event.writeAttempt n _ :: evs => n :: attemptIdxs evs
  | _ :: evs => attemptIdxs evs

/-- Number of successful transport writes recorded in a trace. -/
def successCount : List Event → Nat
  | [] => 0
  | Event.writeAttempt _ true :: evs => successCount evs + 1
  | _ :: evs => successCount evs

/-- A URL on which `Connect`'s loop does not abort: a UDP URL must parse
and build, a stream URL must build. -/
def urlOk (u : URLSpec) : Bool :=
  if u.isUDP then u.parseOk && u.buildOk else u.buildOk

/-- The pool `Connect` builds when no URL aborts: every UDP connection,
and every stream connection whose construction-time `createDatabase`
succeeded. -/
def healthyConns (us : List URLSpec) : List Conn :=
  (us.filter (fun u => u.isUDP || createDatabase u.conn)).map URLSpec.conn

/-- The `createDatabase` trace `Connect` emits when no URL aborts: one
event per stream URL, at its absolute index, carrying the outcome. -/
def ensureEvents : List URLSpec → Nat → List Event
  | [], _ => []
  | u :: rest, k =>
    if u.isUDP then ensureEvents rest (k + 1)
    else Event.connectEnsure k (createDatabase u.conn) :: ensureEvents rest (k + 1)

/-- Position of the first occurrence of `a` in a list of naturals
(list length when absent). -/
def idxOfNat (a : Nat) : List Nat → Nat
  | [] => 0
  | b :: l => if b = a then 0 else idxOfNat a l + 1

section PermLemmas

theorem setAppend_perm (m : List Nat) (j i : Nat) (h : j < m.length) :
    List.Perm (m.set j i ++ [m.getD j 0]) (m ++ [i]) := by
  induction m generalizing j with
  | nil => simp at h
  | cons a t ih =>
    cases j with
    | zero =>
      simp only [List.set_cons_zero, List.getD_cons_zero, List.cons_append]
      have h1 : List.Perm (t ++ [a]) (a :: t) := List.perm_append_singleton a t
      have h2 : List.Perm (i :: (t ++ [a])) (i :: a :: t) := h1.cons i
      have h3 : List.Perm (i :: a :: t) (a :: i :: t) := List.Perm.swap a i t
      have h4 : List.Perm (i :: t) (t ++ [i]) := (List.perm_append_singleton i t).symm
      exact h2.trans (h3.trans (h4.cons a))
    | succ j =>
      simp only [List.set_cons_succ, List.getD_cons_succ, List.cons_append]
      exact (ih j (Nat.lt_of_succ_lt_succ h)).cons a

theorem perm_range_length {m : List Nat} {i : Nat}
    (h : List.Perm m (List.range i)) : m.length = i := by
  simpa using h.length_eq

theorem perm_range_mem_lt {m : List Nat} {i : Nat}
    (h : List.Perm m (List.range i)) : ∀ x ∈ m, x < i := by
  intro x hx
  exact List.mem_range.mp (h.mem_iff.mp hx)

theorem perm_range_not_mem {m : List Nat} {i : Nat}
    (h : List.Perm m (List.range i)) : i ∉ m := by
  intro hmem
  exact Nat.lt_irrefl i (perm_range_mem_lt h i hmem)

theorem fyStep_perm {m : List Nat} {i : Nat} (j : Nat)
    (h : List.Perm m (List.range i)) (hj : j ≤ i) :
    List.Perm (fyStep m i j) (List.range (i + 1)) := by
  unfold fyStep
  by_cases hji : j = i
  · simp only [hji, if_pos rfl]
    rw [List.range_succ]
    exact h.append_right [i]
  · rw [if_neg hji]
    have hjlt : j < m.length := by
      rw [perm_range_length h]
      exact Nat.lt_of_le_of_ne hj hji
    have h1 := setAppend_perm m j i hjlt
    rw [List.range_succ]
    exact h1.trans (h.append_right [i])

theorem randPermAux_perm (c : Nat → Nat) (n : Nat) :
    List.Perm (randPermAux c n) (List.range n) := by
  induction n with
  | zero => simp [randPermAux]
  | succ n ih =>
    have hj : c n % (n + 1) ≤ n := Nat.lt_succ_iff.mp (Nat.mod_lt _ (Nat.succ_pos n))
    exact fyStep_perm (c n % (n + 1)) ih hj

/-- `randPerm n c` is a permutation of the pool indices `0, …, n-1`. -/
theorem randPerm_perm (n : Nat) (c : Nat → Nat) :
    List.Perm (randPerm n c) (List.range n) := randPermAux_perm c n

theorem randPerm_nodup (n : Nat) (c : Nat → Nat) : (randPerm n c).Nodup :=
  (randPerm_perm n c).nodup_iff.mpr (List.nodup_range n)

theorem idxOfNat_append_cons (a : Nat) (l l' : List Nat) (h : a ∉ l) :
    idxOfNat a (l ++ a :: l') = l.length := by
  induction l with
  | nil => simp [idxOfNat]
  | cons b t ih =>
    have hb : b ≠ a := fun hba => h (hba ▸ List.mem_cons_self b t)
    simp only [List.cons_append, idxOfNat, if_neg hb, List.length_cons, List.append_eq]
    rw [ih (fun hm => h (List.mem_cons_of_mem b hm))]

theorem idxOfNat_set (a : Nat) (l l' : List Nat) (j : Nat)
    (ha : a ∉ l) (hj : j < l.length) :
    idxOfNat a (l.set j a ++ l') = j := by
  induction l generalizing j with
  | nil => simp at hj
  | cons b t ih =>
    cases j with
    | zero => simp [idxOfNat]
    | succ j =>
      have hb : b ≠ a := fun hba => ha (hba ▸ List.mem_cons_self b t)
      simp only [List.set_cons_succ, List.cons_append, idxOfNat, if_neg hb, List.append_eq]
      rw [ih j (fun hm => ha (List.mem_cons_of_mem b hm)) (Nat.lt_of_succ_lt_succ hj)]

theorem idxOfNat_lt_length (a : Nat) (l : List Nat) (h : a ∈ l) :
    idxOfNat a l < l.length := by
  induction l with
  | nil => simp at h
  | cons b t ih =>
    by_cases hb : b = a
    · simp [idxOfNat, hb]
    · simp only [idxOfNat, if_neg hb, List.length_cons]
      have : a ∈ t := by
        rcases List.mem_cons.mp h with h1 | h1
        · exact absurd h1.symm hb
        · exact h1
      exact Nat.succ_lt_succ (ih this)

theorem getD_idxOfNat (a : Nat) (l : List Nat) (h : a ∈ l) :
    l.getD (idxOfNat a l) 0 = a := by
  induction l with
  | nil => simp at h
  | cons b t ih =>
    by_cases hb : b = a
    · simp [idxOfNat, hb]
    · simp only [idxOfNat, if_neg hb, List.getD_cons_succ]
      have : a ∈ t := by
        rcases List.mem_cons.mp h with h1 | h1
        · exact absurd h1.symm hb
        · exact h1
      exact ih this

theorem getD_append_length (l l' : List Nat) (a d : Nat) :
    (l ++ a :: l').getD l.length d = a := by
  induction l with
  | nil => simp
  | cons b t ih => simpa using ih

theorem set_append_length (l l' : List Nat) (a b : Nat) :
    (l ++ a :: l').set l.length b = l ++ b :: l' := by
  induction l with
  | nil => simp
  | cons x t ih => simp [ih]

theorem set_getD_self (l : List Nat) (j : Nat) (h : j < l.length) :
    l.set j (l.getD j 0) = l := by
  induction l generalizing j with
  | nil => simp at h
  | cons b t ih =>
    cases j with
    | zero => simp
    | succ j =>
      simp only [List.getD_cons_succ, List.set_cons_succ, List.cons.injEq, true_and]
      exact ih j (Nat.lt_of_succ_lt_succ h)

theorem getD_set_self (l : List Nat) (j a d : Nat) (h : j < l.length) :
    (l.set j a).getD j d = a := by
  induction l generalizing j with
  | nil => simp at h
  | cons b t ih =>
    cases j with
    | zero => simp
    | succ j =>
      simp only [List.set_cons_succ, List.getD_cons_succ]
      exact ih j (Nat.lt_of_succ_lt_succ h)

theorem getD_take (l : List Nat) (j n d : Nat) (h : j < n) :
    (l.take n).getD j d = l.getD j d := by
  induction l generalizing j n with
  | nil => simp
  | cons b t ih =>
    cases n with
    | zero => simp at h
    | succ n =>
      cases j with
      | zero => simp
      | succ j =>
        simp only [List.take_succ_cons, List.getD_cons_succ]
        exact ih j n (Nat.lt_of_succ_lt_succ h)

theorem set_take (l : List Nat) (j b n : Nat) (h : j < n) :
    (l.take n).set j b = (l.set j b).take n := by
  induction l generalizing j n with
  | nil => simp
  | cons x t ih =>
    cases n with
    | zero => simp at h
    | succ n =>
      cases j with
      | zero => simp
      | succ j =>
        simp only [List.take_succ_cons, List.set_cons_succ]
        rw [ih j n (Nat.lt_of_succ_lt_succ h)]

theorem take_append_getD (l : List Nat) (n : Nat) (h : l.length = n + 1) :
    l.take n ++ [l.getD n 0] = l := by
  induction l generalizing n with
  | nil => simp at h
  | cons b t ih =>
    cases n with
    | zero =>
      have : t = [] := List.length_eq_zero.mp (Nat.succ_injective h)
      simp [this]
    | succ n =>
      simp only [List.take_succ_cons, List.getD_cons_succ, List.cons_append, List.cons.injEq,
        true_and]
      exact ih n (Nat.succ_injective h)

theorem fyStep_idxOfNat {m : List Nat} {i : Nat} (j : Nat)
    (h : List.Perm m (List.range i)) (hj : j ≤ i) :
    idxOfNat i (fyStep m i j) = j := by
  unfold fyStep
  by_cases hji : j = i
  · rw [if_pos hji]
    have := idxOfNat_append_cons i m [] (perm_range_not_mem h)
    rw [this, perm_range_length h, hji]
  · rw [if_neg hji]
    exact idxOfNat_set i m _ j (perm_range_not_mem h)
      ((perm_range_length h).symm ▸ Nat.lt_of_le_of_ne hj hji)

theorem fyStep_recover {m : List Nat} {i : Nat} (j : Nat)
    (hm : m.length = i) (hj : j ≤ i) :
    ((fyStep m i j).set j ((fyStep m i j).getD i 0)).take i = m := by
  unfold fyStep
  by_cases hji : j = i
  · rw [if_pos hji, hji]
    have h1 : (m ++ [i]).getD i 0 = i := by
      have := getD_append_length m [] i 0
      rwa [hm] at this
    have h2 : (m ++ [i]).set i i = m ++ [i] := by
      have := set_append_length m [] i i
      rwa [hm] at this
    rw [h1, h2, ← hm, List.take_left]
  · rw [if_neg hji]
    have hjlt : j < m.length := hm.symm ▸ Nat.lt_of_le_of_ne hj hji
    have hsl : (m.set j i).length = i := by rw [List.length_set, hm]
    have h1 : (m.set j i ++ [m.getD j 0]).getD i 0 = m.getD j 0 := by
      have := getD_append_length (m.set j i) [] (m.getD j 0) 0
      rwa [hsl] at this
    have hjlt' : j < (m.set j i).length := by rw [List.length_set]; exact hjlt
    have h2 : (m.set j i ++ [m.getD j 0]).set j (m.getD j 0) = m ++ [m.getD j 0] := by
      rw [List.set_append_left j (m.getD j 0) hjlt', List.set_set, set_getD_self m j hjlt]
    rw [h1, h2, ← hm, List.take_left]

theorem randPermAux_congr {c c' : Nat → Nat} (n : Nat)
    (h : ∀ k, k < n → c k = c' k) : randPermAux c n = randPermAux c' n := by
  induction n with
  | zero => rfl
  | succ n ih =>
    show fyStep (randPermAux c n) n (c n % (n + 1)) =
      fyStep (randPermAux c' n) n (c' n % (n + 1))
    rw [ih (fun k hk => h k (Nat.lt_succ_of_lt hk)), h n (Nat.lt_succ_self n)]

/-- Distinct in-range draw streams yield distinct permutations: the map
behind `rand.Perm` is injective on its domain. -/
theorem randPerm_inj (n : Nat) (c c' : Nat → Nat)
    (hc : ∀ k, k < n → c k ≤ k) (hc' : ∀ k, k < n → c' k ≤ k)
    (heq : randPerm n c = randPerm n c') : ∀ k, k < n → c k = c' k := by
  induction n with
  | zero => intro k hk; exact absurd hk (Nat.not_lt_zero k)
  | succ n ih =>
    have hcn : c n % (n + 1) = c n :=
      Nat.mod_eq_of_lt (Nat.lt_succ_of_le (hc n (Nat.lt_succ_self n)))
    have hcn' : c' n % (n + 1) = c' n :=
      Nat.mod_eq_of_lt (Nat.lt_succ_of_le (hc' n (Nat.lt_succ_self n)))
    have heq' : fyStep (randPermAux c n) n (c n) = fyStep (randPermAux c' n) n (c' n) := by
      have : randPermAux c (n + 1) = randPermAux c' (n + 1) := heq
      rw [show randPermAux c (n + 1) = fyStep (randPermAux c n) n (c n % (n + 1)) from rfl,
        show randPermAux c' (n + 1) = fyStep (randPermAux c' n) n (c' n % (n + 1)) from rfl,
        hcn, hcn'] at this
      exact this
    have hm : List.Perm (randPermAux c n) (List.range n) := randPermAux_perm c n
    have hm' : List.Perm (randPermAux c' n) (List.range n) := randPermAux_perm c' n
    have hlast : c n = c' n := by
      have h1 := fyStep_idxOfNat (c n) hm (hc n (Nat.lt_succ_self n))
      have h2 := fyStep_idxOfNat (c' n) hm' (hc' n (Nat.lt_succ_self n))
      rw [heq'] at h1
      rw [h1] at h2
      exact h2
    have hmm : randPermAux c n = randPermAux c' n := by
      have r1 := fyStep_recover (c n) (perm_range_length hm) (hc n (Nat.lt_succ_self n))
      have r2 := fyStep_recover (c' n) (perm_range_length hm') (hc' n (Nat.lt_succ_self n))
      rw [heq', hlast] at r1
      rw [r1] at r2
      exact r2
    intro k hk
    rcases Nat.lt_succ_iff_lt_or_eq.mp hk with hk' | hk'
    · exact ih (fun a ha => hc a (Nat.lt_succ_of_lt ha))
        (fun a ha => hc' a (Nat.lt_succ_of_lt ha)) hmm k hk'
    · rw [hk']; exact hlast

/-- Every permutation of the pool indices is produced by exactly one
in-range draw stream — together with `randPerm_inj`, uniform independent
draws make `rand.Perm` uniform over permutations. -/
theorem randPerm_surj (n : Nat) (p : List Nat) (hp : List.Perm p (List.range n)) :
    ∃ c : Nat → Nat, (∀ k, k < n → c k ≤ k) ∧ randPerm n c = p := by
  induction n generalizing p with
  | zero =>
    refine ⟨fun _ => 0, fun k hk => absurd hk (Nat.not_lt_zero k), ?_⟩
    simpa [randPerm, randPermAux] using hp.eq_nil.symm
  | succ n ih =>
    have hn : n ∈ p := hp.mem_iff.mpr (List.mem_range.mpr (Nat.lt_succ_self n))
    have hlen : p.length = n + 1 := perm_range_length hp
    set j := idxOfNat n p with hjdef
    have hjlt : j < n + 1 := hlen ▸ idxOfNat_lt_length n p hn
    have hj : j ≤ n := Nat.lt_succ_iff.mp hjlt
    have hjp : j < p.length := hlen ▸ hjlt
    have hpj : p.getD j 0 = n := getD_idxOfNat n p hn
    set x := p.getD n 0 with hxdef
    set m := (p.set j x).take n with hmdef
    have hfy : fyStep m n j = p := by
      by_cases hji : j = n
      · have hset : p.set j x = p := by
          rw [hxdef, ← hji, set_getD_self p j hjp]
        have h5 : p.getD n 0 = n := hji ▸ hpj
        rw [hmdef, hset]
        unfold fyStep
        rw [if_pos hji]
        have h6 := take_append_getD p n hlen
        rw [h5] at h6
        exact h6
      · have hjn : j < n := Nat.lt_of_le_of_ne hj hji
        have hg : m.getD j 0 = x := by
          rw [hmdef, getD_take _ j n 0 hjn, getD_set_self p j x 0 hjp]
        have hs : m.set j n = p.take n := by
          rw [hmdef, set_take (p.set j x) j n n hjn, List.set_set]
          have : p.set j n = p := by rw [← hpj, set_getD_self p j hjp]
          rw [this]
        unfold fyStep
        rw [if_neg hji, hg, hs]
        have h6 := take_append_getD p n hlen
        rw [← hxdef] at h6
        exact h6
    have hmlen : m.length = n := by
      rw [hmdef, List.length_take, List.length_set, hlen]
      exact Nat.min_eq_left (Nat.le_succ n)
    have hstep : List.Perm (fyStep m n j) (m ++ [n]) := by
      by_cases hji : j = n
      · unfold fyStep; rw [if_pos hji]
      · unfold fyStep; rw [if_neg hji]
        exact setAppend_perm m j n (hmlen.symm ▸ Nat.lt_of_le_of_ne hj hji)
    have hrng : List.Perm p (List.range n ++ [n]) := by
      rw [← List.range_succ]; exact hp
    have h1 : List.Perm (m ++ [n]) (List.range n ++ [n]) :=
      hstep.symm.trans (hfy ▸ hrng)
    have h2 : List.Perm (n :: m) (n :: List.range n) :=
      ((List.perm_append_singleton n m).symm.trans h1).trans
        (List.perm_append_singleton n (List.range n))
    have hmA : List.Perm m (List.range n) := h2.cons_inv
    obtain ⟨c₀, hc₀, hr₀⟩ := ih m hmA
    refine ⟨fun k => if k = n then j else c₀ k, ?_, ?_⟩
    · intro k hk
      by_cases hkn : k = n
      · simp only [if_pos hkn]; rw [hkn]; exact hj
      · simp only [if_neg hkn]
        exact hc₀ k (Nat.lt_of_le_of_ne (Nat.lt_succ_iff.mp hk) hkn)
    · show fyStep (randPermAux _ n) n ((if n = n then j else c₀ n) % (n + 1)) = p
      have hcongr : randPermAux (fun k => if k = n then j else c₀ k) n = randPermAux c₀ n :=
        randPermAux_congr n (fun k hk => by simp [Nat.ne_of_lt hk])
      have hr₀' : randPermAux c₀ n = m := hr₀
      rw [hcongr, hr₀']
      have hifn : (if n = n then j else c₀ n) = j := if_pos rfl
      rw [hifn, Nat.mod_eq_of_lt hjlt]
      exact hfy

end PermLemmas

section TraceLemmas

theorem attemptIdxs_append (a b : List Event) :
    attemptIdxs (a ++ b) = attemptIdxs a ++ attemptIdxs b := by
  induction a with
  | nil => rfl
  | cons e t ih =>
    cases e with
    | connectEnsure idx ok => simpa [attemptIdxs] using ih
    | recoveryEnsure idx ok => simpa [attemptIdxs] using ih
    | writeAttempt idx ok => simpa [attemptIdxs] using ih

theorem successCount_append (a b : List Event) :
    successCount (a ++ b) = successCount a + successCount b := by
  induction a with
  | nil => simp [successCount]
  | cons e t ih =>
    cases e with
    | connectEnsure idx ok => simpa [successCount] using ih
    | recoveryEnsure idx ok => simpa [successCount] using ih
    | writeAttempt idx ok =>
      cases ok with
      | false => simpa [successCount] using ih
      | true => simp [successCount, ih, Nat.add_right_comm]

theorem encodeBatch_ok (ms : List Metric) (h : ∀ m ∈ ms, m.pointOk = true) :
    encodeBatch ms = .ok ms := by
  induction ms with
  | nil => rfl
  | cons m rest ih =>
    have hm : m.pointOk = true := h m (List.mem_cons_self m rest)
    have hr := ih (fun a ha => h a (List.mem_cons_of_mem m ha))
    simp [encodeBatch, hm, hr]

theorem encodeBatch_err (ms : List Metric) (h : ∃ m ∈ ms, m.pointOk = false) :
    encodeBatch ms = .error .encodingError := by
  induction ms with
  | nil => simp at h
  | cons m rest ih =>
    by_cases hm : m.pointOk = true
    · rcases h with ⟨a, ha, hpa⟩
      have harest : a ∈ rest := by
        rcases List.mem_cons.mp ha with h1 | h1
        · rw [h1] at hpa; rw [hpa] at hm; exact absurd hm (by simp)
        · exact h1
      have := ih ⟨a, harest, hpa⟩
      simp [encodeBatch, hm, this]
    · simp [encodeBatch, Bool.eq_false_iff.mpr hm]

end TraceLemmas

section ConnectLemmas

theorem connectGo_no_attempts (us : List URLSpec) (p k : Nat) :
    attemptIdxs (connectGo p k us).2.1 = [] := by
  induction us generalizing p k with
  | nil => rfl
  | cons u rest ih =>
    simp only [connectGo]
    by_cases h1 : u.isUDP
    · simp only [if_pos h1]
      by_cases h2 : u.parseOk
      · simp only [if_pos h2]
        by_cases h3 : u.buildOk
        · simp only [if_pos h3]
          have := ih (if p = 0 then udpPayloadSize else p) (k + 1)
          rcases hgo : connectGo (if p = 0 then udpPayloadSize else p) (k + 1) rest
            with ⟨p2, evs, r⟩
          rw [hgo] at this
          simpa using this
        · simp [if_neg h3, attemptIdxs]
      · simp [if_neg h2, attemptIdxs]
    · simp only [if_neg h1]
      by_cases h3 : u.buildOk
      · simp only [if_pos h3]
        have := ih p (k + 1)
        rcases hgo : connectGo p (k + 1) rest with ⟨p2, evs, r⟩
        rw [hgo] at this
        by_cases h4 : createDatabase u.conn
        · simpa [h4, attemptIdxs] using this
        · simpa [h4, attemptIdxs] using this
      · simp [if_neg h3, attemptIdxs]

theorem connectGo_no_success (us : List URLSpec) (p k : Nat) :
    successCount (connectGo p k us).2.1 = 0 := by
  induction us generalizing p k with
  | nil => rfl
  | cons u rest ih =>
    simp only [connectGo]
    by_cases h1 : u.isUDP
    · simp only [if_pos h1]
      by_cases h2 : u.parseOk
      · simp only [if_pos h2]
        by_cases h3 : u.buildOk
        · simp only [if_pos h3]
          have := ih (if p = 0 then udpPayloadSize else p) (k + 1)
          rcases hgo : connectGo (if p = 0 then udpPayloadSize else p) (k + 1) rest
            with ⟨p2, evs, r⟩
          rw [hgo] at this
          simpa using this
        · simp [if_neg h3, successCount]
      · simp [if_neg h2, successCount]
    · simp only [if_neg h1]
      by_cases h3 : u.buildOk
      · simp only [if_pos h3]
        have := ih p (k + 1)
        rcases hgo : connectGo p (k + 1) rest with ⟨p2, evs, r⟩
        rw [hgo] at this
        by_cases h4 : createDatabase u.conn
        · simpa [h4, successCount] using this
        · simpa [h4, successCount] using this
      · simp [if_neg h3, successCount]

theorem connectGo_payload_stable (us : List URLSpec) (p k : Nat) (hp : p ≠ 0) :
    (connectGo p k us).1 = p := by
  induction us generalizing k with
  | nil => rfl
  | cons u rest ih =>
    simp only [connectGo]
    by_cases h1 : u.isUDP
    · simp only [if_pos h1]
      by_cases h2 : u.parseOk
      · simp only [if_pos h2, if_neg hp]
        by_cases h3 : u.buildOk
        · simp only [if_pos h3]
          have := ih (k + 1)
          rcases hgo : connectGo p (k + 1) rest with ⟨p2, evs, r⟩
          rw [hgo] at this
          simpa using this
        · simp [if_neg h3]
      · simp [if_neg h2]
    · simp only [if_neg h1]
      by_cases h3 : u.buildOk
      · simp only [if_pos h3]
        have := ih (k + 1)
        rcases hgo : connectGo p (k + 1) rest with ⟨p2, evs, r⟩
        rw [hgo] at this
        by_cases h4 : createDatabase u.conn
        · simpa [h4] using this
        · simpa [h4] using this
      · simp [if_neg h3]

theorem connectGo_payload_reached (pre : List URLSpec) :
    ∀ (u : URLSpec) (post : List URLSpec) (k : Nat),
      (∀ v ∈ pre, urlOk v = true) → u.isUDP = true → u.parseOk = true →
      (connectGo 0 k (pre ++ u :: post)).1 = udpPayloadSize := by
  induction pre with
  | nil =>
    intro u post k _ h1 h2
    have h512 : udpPayloadSize ≠ 0 := by decide
    by_cases h3 : u.buildOk
    · have hst := connectGo_payload_stable post udpPayloadSize (k + 1) h512
      simp [connectGo, h1, h2, h3, hst]
    · simp [connectGo, h1, h2, h3]
  | cons v pre' ih =>
    intro u post k hok h1 h2
    have hv := hok v (List.mem_cons_self v pre')
    have hoktail : ∀ a ∈ pre', urlOk a = true :=
      fun a ha => hok a (List.mem_cons_of_mem v ha)
    by_cases hvu : v.isUDP
    · rw [urlOk, if_pos hvu] at hv
      have hvp : v.parseOk = true := (Bool.and_eq_true _ _).mp hv |>.1
      have hvb : v.buildOk = true := (Bool.and_eq_true _ _).mp hv |>.2
      have h512 : udpPayloadSize ≠ 0 := by decide
      have hst := connectGo_payload_stable (pre' ++ u :: post) udpPayloadSize
        (k + 1) h512
      simp [connectGo, hvu, hvp, hvb, hst]
    · rw [urlOk, if_neg hvu] at hv
      have hr := ih u post (k + 1) hoktail h1 h2
      by_cases h4 : createDatabase v.conn
      · simp [connectGo, hvu, hv, h4, hr]
      · simp [connectGo, hvu, hv, h4, hr]

theorem connectGo_ok (us : List URLSpec) :
    ∀ p k : Nat, (∀ u ∈ us, urlOk u = true) →
      (connectGo p k us).2.2 = .ok (healthyConns us) ∧
        (connectGo p k us).2.1 = ensureEvents us k := by
  induction us with
  | nil => intro p k _; exact ⟨rfl, rfl⟩
  | cons u rest ih =>
    intro p k hok
    have hoktail : ∀ a ∈ rest, urlOk a = true :=
      fun a ha => hok a (List.mem_cons_of_mem u ha)
    by_cases h1 : u.isUDP
    · have hu := hok u (List.mem_cons_self u rest)
      rw [urlOk, if_pos h1] at hu
      have h2 : u.parseOk = true := (Bool.and_eq_true _ _).mp hu |>.1
      have h3 : u.buildOk = true := (Bool.and_eq_true _ _).mp hu |>.2
      have hr := ih (if p = 0 then udpPayloadSize else p) (k + 1) hoktail
      constructor
      · simp [connectGo, h1, h2, h3, hr.1, healthyConns, Except.map]
      · simp [connectGo, h1, h2, h3, hr.2, ensureEvents]
    · have hu := hok u (List.mem_cons_self u rest)
      rw [urlOk, if_neg h1] at hu
      have hr := ih p (k + 1) hoktail
      by_cases h4 : createDatabase u.conn
      · constructor
        · simp [connectGo, h1, hu, h4, hr.1, healthyConns, Except.map]
        · simp [connectGo, h1, hu, h4, hr.2, ensureEvents]
      · have h4' : createDatabase u.conn = false := Bool.eq_false_iff.mpr h4
        constructor
        · simp [connectGo, h1, hu, h4', hr.1, healthyConns]
        · simp [connectGo, h1, hu, h4', hr.2, ensureEvents]

theorem connectGo_err (us : List URLSpec) :
    ∀ p k : Nat, (∃ u ∈ us, urlOk u = false) →
      (connectGo p k us).2.2 = .error .configError := by
  induction us with
  | nil => intro p k hbad; simp at hbad
  | cons u rest ih =>
    intro p k hbad
    by_cases hu : urlOk u = true
    · have hrest : ∃ a ∈ rest, urlOk a = false := by
        rcases hbad with ⟨a, ha, hab⟩
        rcases List.mem_cons.mp ha with h5 | h5
        · rw [h5] at hab; rw [hab] at hu; exact absurd hu (by simp)
        · exact ⟨a, h5, hab⟩
      by_cases h1 : u.isUDP
      · have hu' := hu
        rw [urlOk, if_pos h1] at hu'
        have h2 : u.parseOk = true := (Bool.and_eq_true _ _).mp hu' |>.1
        have h3 : u.buildOk = true := (Bool.and_eq_true _ _).mp hu' |>.2
        have hr := ih (if p = 0 then udpPayloadSize else p) (k + 1) hrest
        simp [connectGo, h1, h2, h3, hr, Except.map]
      · have hu' := hu
        rw [urlOk, if_neg h1] at hu'
        have hr := ih p (k + 1) hrest
        by_cases h4 : createDatabase u.conn
        · simp [connectGo, h1, hu', h4, hr, Except.map]
        · simp [connectGo, h1, hu', h4, hr]
    · have hu' : urlOk u = false := Bool.eq_false_iff.mpr hu
      by_cases h1 : u.isUDP
      · rw [urlOk, if_pos h1] at hu'
        by_cases h2 : u.parseOk
        · have h3 : u.buildOk = false := by
            rcases Bool.and_eq_false_iff.mp hu' with h5 | h5
            · rw [h2] at h5; exact absurd h5 (by simp)
            · exact h5
          simp [connectGo, h1, h2, h3]
        · simp [connectGo, h1, Bool.eq_false_iff.mpr h2]
      · rw [urlOk, if_neg h1] at hu'
        simp [connectGo, h1, hu']

theorem Connect_ok (i : InfluxDB) (hok : ∀ u ∈ allUrls i, urlOk u = true) :
    (Connect i).2.1 = none ∧ (Connect i).1.conns = healthyConns (allUrls i) ∧
      (Connect i).2.2 = ensureEvents (allUrls i) 0 := by
  have h := connectGo_ok (allUrls i) i.UDPPayload 0 hok
  have h1 := h.1
  have h2 := h.2
  unfold Connect
  rcases hgo : connectGo i.UDPPayload 0 (allUrls i) with ⟨p, evs, r⟩
  rw [hgo] at h1 h2
  simp only at h1 h2
  rw [h1, h2]
  exact ⟨rfl, rfl, rfl⟩

theorem Connect_err (i : InfluxDB) (hbad : ∃ u ∈ allUrls i, urlOk u = false) :
    (Connect i).2.1 = some .configError ∧ (Connect i).1.conns = i.conns := by
  have h := connectGo_err (allUrls i) i.UDPPayload 0 hbad
  unfold Connect
  rcases hgo : connectGo i.UDPPayload 0 (allUrls i) with ⟨p, evs, r⟩
  rw [hgo] at h
  simp only at h
  rw [h]
  exact ⟨rfl, rfl⟩

theorem Connect_fields (i : InfluxDB) :
    (Connect i).1.URL = i.URL ∧ (Connect i).1.URLs = i.URLs ∧
      (Connect i).1.Username = i.Username ∧ (Connect i).1.Password = i.Password ∧
      (Connect i).1.Database = i.Database ∧ (Connect i).1.UserAgent = i.UserAgent ∧
      (Connect i).1.RetentionPolicy = i.RetentionPolicy ∧
      (Connect i).1.WriteConsistency = i.WriteConsistency ∧
      (Connect i).1.Timeout = i.Timeout ∧ (Connect i).1.Precision = i.Precision := by
  unfold Connect
  rcases connectGo i.UDPPayload 0 (allUrls i) with ⟨p, evs, r⟩
  cases r with
  | error e => exact ⟨rfl, rfl, rfl, rfl, rfl, rfl, rfl, rfl, rfl, rfl⟩
  | ok cs => exact ⟨rfl, rfl, rfl, rfl, rfl, rfl, rfl, rfl, rfl, rfl⟩

theorem Connect_payload_stable (i : InfluxDB) (h : i.UDPPayload ≠ 0) :
    (Connect i).1.UDPPayload = i.UDPPayload := by
  have hst := connectGo_payload_stable (allUrls i) i.UDPPayload 0 h
  unfold Connect
  rcases hgo : connectGo i.UDPPayload 0 (allUrls i) with ⟨p, evs, r⟩
  rw [hgo] at hst
  simp only at hst
  cases r with
  | error e => simpa using hst
  | ok cs => simpa using hst

theorem Connect_payload_reached (i : InfluxDB) (h0 : i.UDPPayload = 0)
    (pre : List URLSpec) (u : URLSpec) (post : List URLSpec)
    (hsplit : allUrls i = pre ++ u :: post)
    (hpre : ∀ v ∈ pre, urlOk v = true)
    (h1 : u.isUDP = true) (h2 : u.parseOk = true) :
    (Connect i).1.UDPPayload = udpPayloadSize := by
  have hd := connectGo_payload_reached pre u post 0 hpre h1 h2
  unfold Connect
  rw [h0, hsplit]
  rcases hgo : connectGo 0 0 (pre ++ u :: post) with ⟨p, evs, r⟩
  rw [hgo] at hd
  simp only at hd
  cases r with
  | error e => simpa using hd
  | ok cs => simpa using hd

theorem Connect_no_attempts (i : InfluxDB) : attemptIdxs (Connect i).2.2 = [] := by
  have h := connectGo_no_attempts (allUrls i) i.UDPPayload 0
  unfold Connect
  rcases hgo : connectGo i.UDPPayload 0 (allUrls i) with ⟨p, evs, r⟩
  rw [hgo] at h
  simp only at h
  cases r with
  | error e => simpa using h
  | ok cs => simpa using h

theorem Connect_no_success (i : InfluxDB) : successCount (Connect i).2.2 = 0 := by
  have h := connectGo_no_success (allUrls i) i.UDPPayload 0
  unfold Connect
  rcases hgo : connectGo i.UDPPayload 0 (allUrls i) with ⟨p, evs, r⟩
  rw [hgo] at h
  simp only at h
  cases r with
  | error e => simpa using h
  | ok cs => simpa using h

end ConnectLemmas

section DispatchLemmas

theorem dispatch_cons (conns : List Conn) (n : Nat) (rest : List Nat) :
    dispatch conns (n :: rest) =
      if (conns.getD n default).writeOk then (true, [Event.writeAttempt n true])
      else ((dispatch conns rest).1,
        Event.writeAttempt n false ::
          (if (conns.getD n default).notFound then
            Event.recoveryEnsure n (createDatabase (conns.getD n default)) ::
              (dispatch conns rest).2
          else (dispatch conns rest).2)) := rfl

theorem dispatch_attempts_take (conns : List Conn) (p : List Nat) :
    ∃ k, attemptIdxs (dispatch conns p).2 = p.take k := by
  induction p with
  | nil => exact ⟨0, rfl⟩
  | cons n rest ih =>
    by_cases hw : (conns.getD n default).writeOk
    · refine ⟨1, ?_⟩
      rw [dispatch_cons, if_pos hw]
      simp [attemptIdxs]
    · rcases ih with ⟨k, hk⟩
      refine ⟨k + 1, ?_⟩
      rw [dispatch_cons, if_neg hw]
      by_cases hn : (conns.getD n default).notFound
      · rw [if_pos hn]
        simp only [attemptIdxs, List.take_succ_cons]
        rw [hk]
      · rw [if_neg hn]
        simp only [attemptIdxs, List.take_succ_cons]
        rw [hk]

theorem dispatch_successCount (conns : List Conn) (p : List Nat) :
    successCount (dispatch conns p).2 =
      if (dispatch conns p).1 then 1 else 0 := by
  induction p with
  | nil => rfl
  | cons n rest ih =>
    by_cases hw : (conns.getD n default).writeOk
    · rw [dispatch_cons, if_pos hw]
      simp [successCount]
    · rw [dispatch_cons, if_neg hw]
      by_cases hn : (conns.getD n default).notFound
      · rw [if_pos hn]
        simpa [successCount] using ih
      · rw [if_neg hn]
        simpa [successCount] using ih

theorem dispatch_success_split (conns : List Conn) (p : List Nat)
    (h : (dispatch conns p).1 = true) :
    ∃ evs' n, (dispatch conns p).2 = evs' ++ [Event.writeAttempt n true] := by
  induction p with
  | nil => simp [dispatch] at h
  | cons n rest ih =>
    by_cases hw : (conns.getD n default).writeOk
    · refine ⟨[], n, ?_⟩
      rw [dispatch_cons, if_pos hw]
      simp
    · rw [dispatch_cons, if_neg hw] at h
      simp only at h
      rcases ih h with ⟨evs', n', he⟩
      by_cases hn : (conns.getD n default).notFound
      · refine ⟨Event.writeAttempt n false ::
          Event.recoveryEnsure n (createDatabase (conns.getD n default)) :: evs', n', ?_⟩
        rw [dispatch_cons, if_neg hw, if_pos hn]
        simp [he]
      · refine ⟨Event.writeAttempt n false :: evs', n', ?_⟩
        rw [dispatch_cons, if_neg hw, if_neg hn]
        simp [he]

theorem dispatch_all_fail (conns : List Conn) (p : List Nat)
    (h : ∀ n ∈ p, (conns.getD n default).writeOk = false) :
    (dispatch conns p).1 = false ∧ attemptIdxs (dispatch conns p).2 = p := by
  induction p with
  | nil => exact ⟨rfl, rfl⟩
  | cons n rest ih =>
    have hw : (conns.getD n default).writeOk = false := h n (List.mem_cons_self n rest)
    have hw' : ¬(conns.getD n default).writeOk = true := by rw [hw]; simp
    have ih' := ih (fun a ha => h a (List.mem_cons_of_mem n ha))
    rw [dispatch_cons, if_neg hw']
    by_cases hn : (conns.getD n default).notFound
    · rw [if_pos hn]
      exact ⟨ih'.1, by simp only [attemptIdxs]; rw [ih'.2]⟩
    · rw [if_neg hn]
      exact ⟨ih'.1, by simp only [attemptIdxs]; rw [ih'.2]⟩

/-- The step equation of the failover loop at a connection whose write
fails with a "database not found" error: the attempt is logged, the
schema guard runs on that same connection, and the walk continues with
exactly the remaining candidates. -/
theorem dispatch_not_found_step (conns : List Conn) (n : Nat) (rest : List Nat)
    (hfail : (conns.getD n default).writeOk = false)
    (hnf : (conns.getD n default).notFound = true) :
    dispatch conns (n :: rest) =
      ((dispatch conns rest).1,
        Event.writeAttempt n false ::
          Event.recoveryEnsure n (createDatabase (conns.getD n default)) ::
          (dispatch conns rest).2) := by
  rw [dispatch_cons, if_neg (by rw [hfail]; simp : ¬(conns.getD n default).writeOk = true),
    if_pos hnf]

end DispatchLemmas

section WriteLemmas

theorem Write_cases (i : InfluxDB) (c : Nat → Nat) (ms : List Metric) :
    (i.conns.length = 0 ∧ ∃ e, (Connect i).2.1 = some e ∧
        Write i c ms = ((Connect i).1, some e, (Connect i).2.2)) ∨
    (i.conns.length = 0 ∧ (Connect i).2.1 = none ∧
        Write i c ms = writeCore (Connect i).1 c ms (Connect i).2.2) ∨
    (¬i.conns.length = 0 ∧ Write i c ms = writeCore i c ms []) := by
  by_cases h0 : i.conns.length = 0
  · rcases hC : Connect i with ⟨i', r, evs⟩
    cases r with
    | some e =>
      left
      exact ⟨h0, e, rfl, by unfold Write; rw [if_pos h0, hC]⟩
    | none =>
      right; left
      exact ⟨h0, rfl, by unfold Write; rw [if_pos h0, hC]⟩
  · right; right
    exact ⟨h0, by unfold Write; rw [if_neg h0]⟩

theorem writeCore_err (i : InfluxDB) (c : Nat → Nat) (ms : List Metric)
    (evs0 : List Event) (e : WError) (he : encodeBatch ms = .error e) :
    writeCore i c ms evs0 = (i, some e, evs0) := by
  unfold writeCore
  rw [he]

theorem writeCore_ok (i : InfluxDB) (c : Nat → Nat) (ms : List Metric)
    (evs0 : List Event) (ps : List Metric) (he : encodeBatch ms = .ok ps) :
    writeCore i c ms evs0 =
      (i, if (dispatch i.conns (randPerm i.conns.length c)).1 then none
            else some .poolExhausted,
        evs0 ++ (dispatch i.conns (randPerm i.conns.length c)).2) := by
  unfold writeCore
  rw [he]

theorem write_attempts_spec (i : InfluxDB) (c : Nat → Nat) (ms : List Metric) :
    ∃ k, attemptIdxs (Write i c ms).2.2 =
      (randPerm ((Write i c ms).1).conns.length c).take k := by
  rcases Write_cases i c ms with ⟨h0, e, he, hw⟩ | ⟨h0, he, hw⟩ | ⟨h0, hw⟩
  · refine ⟨0, ?_⟩
    rw [hw]
    simpa using Connect_no_attempts i
  · rw [hw]
    cases hE : encodeBatch ms with
    | error e =>
      rw [writeCore_err _ _ _ _ _ hE]
      refine ⟨0, ?_⟩
      simpa using Connect_no_attempts i
    | ok ps =>
      rw [writeCore_ok _ _ _ _ _ hE]
      rcases dispatch_attempts_take ((Connect i).1).conns
        (randPerm ((Connect i).1).conns.length c) with ⟨k, hk⟩
      refine ⟨k, ?_⟩
      simp only [attemptIdxs_append]
      rw [Connect_no_attempts i, hk]
      simp
  · rw [hw]
    cases hE : encodeBatch ms with
    | error e =>
      rw [writeCore_err _ _ _ _ _ hE]
      exact ⟨0, by simp [attemptIdxs]⟩
    | ok ps =>
      rw [writeCore_ok _ _ _ _ _ hE]
      rcases dispatch_attempts_take i.conns (randPerm i.conns.length c) with ⟨k, hk⟩
      refine ⟨k, ?_⟩
      simp only [attemptIdxs_append]
      rw [hk]
      simp [attemptIdxs]

theorem write_successCount_spec (i : InfluxDB) (c : Nat → Nat) (ms : List Metric) :
    successCount (Write i c ms).2.2 =
      if (Write i c ms).2.1 = none then 1 else 0 := by
  rcases Write_cases i c ms with ⟨h0, e, he, hw⟩ | ⟨h0, he, hw⟩ | ⟨h0, hw⟩
  · rw [hw]
    simpa using Connect_no_success i
  · rw [hw]
    cases hE : encodeBatch ms with
    | error e =>
      rw [writeCore_err _ _ _ _ _ hE]
      simpa using Connect_no_success i
    | ok ps =>
      rw [writeCore_ok _ _ _ _ _ hE]
      simp only [successCount_append]
      rw [Connect_no_success i, dispatch_successCount]
      cases hs : (dispatch ((Connect i).1).conns
        (randPerm ((Connect i).1).conns.length c)).1 <;> simp
  · rw [hw]
    cases hE : encodeBatch ms with
    | error e =>
      rw [writeCore_err _ _ _ _ _ hE]
      simp [successCount]
    | ok ps =>
      rw [writeCore_ok _ _ _ _ _ hE]
      simp only [successCount_append]
      rw [dispatch_successCount]
      cases hs : (dispatch i.conns (randPerm i.conns.length c)).1 <;>
        simp [successCount]

theorem write_none_split (i : InfluxDB) (c : Nat → Nat) (ms : List Metric)
    (h : (Write i c ms).2.1 = none) :
    ∃ evs' n, (Write i c ms).2.2 = evs' ++ [Event.writeAttempt n true] := by
  rcases Write_cases i c ms with ⟨h0, e, he, hw⟩ | ⟨h0, he, hw⟩ | ⟨h0, hw⟩
  · rw [hw] at h
    simp at h
  · rw [hw] at h ⊢
    cases hE : encodeBatch ms with
    | error e =>
      rw [writeCore_err _ _ _ _ _ hE] at h
      simp at h
    | ok ps =>
      rw [writeCore_ok _ _ _ _ _ hE] at h ⊢
      have hs : (dispatch ((Connect i).1).conns
          (randPerm ((Connect i).1).conns.length c)).1 = true := by
        by_contra hs'
        rw [if_neg] at h
        · exact absurd h (by simp)
        · simpa using hs'
      rcases dispatch_success_split _ _ hs with ⟨evs', n, hsp⟩
      refine ⟨(Connect i).2.2 ++ evs', n, ?_⟩
      simp only []
      rw [hsp, List.append_assoc]
  · rw [hw] at h ⊢
    cases hE : encodeBatch ms with
    | error e =>
      rw [writeCore_err _ _ _ _ _ hE] at h
      simp at h
    | ok ps =>
      rw [writeCore_ok _ _ _ _ _ hE] at h ⊢
      have hs : (dispatch i.conns (randPerm i.conns.length c)).1 = true := by
        by_contra hs'
        rw [if_neg] at h
        · exact absurd h (by simp)
        · simpa using hs'
      rcases dispatch_success_split _ _ hs with ⟨evs', n, hsp⟩
      refine ⟨evs', n, ?_⟩
      simp only []
      rw [hsp]
      simp

end WriteLemmas

section Helpers

theorem randPerm_length (n : Nat) (c : Nat → Nat) : (randPerm n c).length = n := by
  rw [(randPerm_perm n c).length_eq, List.length_range]

theorem write_attempts_nodup (i : InfluxDB) (c : Nat → Nat) (ms : List Metric) :
    (attemptIdxs (Write i c ms).2.2).Nodup := by
  obtain ⟨k, hk⟩ := write_attempts_spec i c ms
  rw [hk]
  exact (randPerm_nodup _ c).sublist (List.take_sublist k _)

theorem getD_mem_of_lt (l : List Conn) (n : Nat) (d : Conn) (h : n < l.length) :
    l.getD n d ∈ l := by
  induction l generalizing n with
  | nil => simp at h
  | cons a t ih =>
    cases n with
    | zero => simp
    | succ n =>
      simp only [List.getD_cons_succ]
      exact List.mem_cons_of_mem a (ih n (Nat.lt_of_succ_lt_succ h))

end Helpers

section Claims

/-- C1: a single `Write` call records at most one successful transport
write, never attempts the same pool member twice, invokes the transport
write on at most `N` connections (`N` the size of the pool the call used),
and when the call succeeds, the successful attempt is the last event of
the trace — the remaining candidates are never tried. -/
theorem write_at_most_one_delivery (i : InfluxDB) (c : Nat → Nat) (ms : List Metric) :
    successCount (Write i c ms).2.2 ≤ 1 ∧
    (attemptIdxs (Write i c ms).2.2).Nodup ∧
    (attemptIdxs (Write i c ms).2.2).length ≤ ((Write i c ms).1).conns.length ∧
    ((Write i c ms).2.1 = none →
      ∃ evs' n, (Write i c ms).2.2 = evs' ++ [Event.writeAttempt n true]) := by
  obtain ⟨k, hk⟩ := write_attempts_spec i c ms
  refine ⟨?_, write_attempts_nodup i c ms, ?_, fun h => write_none_split i c ms h⟩
  · rw [write_successCount_spec]
    by_cases h : (Write i c ms).2.1 = none <;> simp [h]
  · rw [hk]
    calc (List.take k (randPerm ((Write i c ms).1).conns.length c)).length
        ≤ (randPerm ((Write i c ms).1).conns.length c).length :=
          (List.take_sublist k _).length_le
      _ = ((Write i c ms).1).conns.length := randPerm_length _ c

/-- Witness for C1 at a one-connection pool whose write succeeds. -/
theorem write_at_most_one_delivery_witness :
    successCount (Write ⟨none, [], "", "", "db", "", "", "", 5, 0, "",
        [⟨true, false, true⟩]⟩ (fun _ => 0) [⟨"m", true⟩]).2.2 ≤ 1 ∧
    (attemptIdxs (Write ⟨none, [], "", "", "db", "", "", "", 5, 0, "",
        [⟨true, false, true⟩]⟩ (fun _ => 0) [⟨"m", true⟩]).2.2).Nodup ∧
    (attemptIdxs (Write ⟨none, [], "", "", "db", "", "", "", 5, 0, "",
        [⟨true, false, true⟩]⟩ (fun _ => 0) [⟨"m", true⟩]).2.2).length ≤
      ((Write ⟨none, [], "", "", "db", "", "", "", 5, 0, "",
        [⟨true, false, true⟩]⟩ (fun _ => 0) [⟨"m", true⟩]).1).conns.length ∧
    ((Write ⟨none, [], "", "", "db", "", "", "", 5, 0, "",
        [⟨true, false, true⟩]⟩ (fun _ => 0) [⟨"m", true⟩]).2.1 = none →
      ∃ evs' n, (Write ⟨none, [], "", "", "db", "", "", "", 5, 0, "",
        [⟨true, false, true⟩]⟩ (fun _ => 0) [⟨"m", true⟩]).2.2 =
        evs' ++ [Event.writeAttempt n true]) :=
  write_at_most_one_delivery
    ⟨none, [], "", "", "db", "", "", "", 5, 0, "", [⟨true, false, true⟩]⟩
    (fun _ => 0) [⟨"m", true⟩]

/-- C2: on a non-empty pool in which every connection's write fails, a
`Write` call with an encodable batch returns exactly the aggregate
failure (`poolExhausted`), leaves the struct untouched, records no
successful write, and attempts each pool member exactly once — failures
are swallowed and nothing is retried inside the call. -/
theorem write_all_fail_pool_exhausted (i : InfluxDB) (c : Nat → Nat) (ms : List Metric)
    (hne : i.conns ≠ [])
    (hfail : ∀ cn ∈ i.conns, cn.writeOk = false)
    (henc : ∀ m ∈ ms, m.pointOk = true) :
    (Write i c ms).2.1 = some .poolExhausted ∧
    (Write i c ms).1 = i ∧
    successCount (Write i c ms).2.2 = 0 ∧
    List.Perm (attemptIdxs (Write i c ms).2.2) (List.range i.conns.length) := by
  have h0 : ¬i.conns.length = 0 := by
    simpa [List.length_eq_zero] using hne
  have hw : Write i c ms = writeCore i c ms [] := by
    unfold Write
    rw [if_neg h0]
  have hall : ∀ n ∈ randPerm i.conns.length c,
      (i.conns.getD n default).writeOk = false := by
    intro n hn
    exact hfail _ (getD_mem_of_lt i.conns n default
      (perm_range_mem_lt (randPerm_perm i.conns.length c) n hn))
  have hd := dispatch_all_fail i.conns (randPerm i.conns.length c) hall
  have hcore := writeCore_ok i c ms [] ms (encodeBatch_ok ms henc)
  rw [hw, hcore]
  refine ⟨?_, rfl, ?_, ?_⟩
  · simp [hd.1]
  · simp only [List.nil_append]
    rw [dispatch_successCount, hd.1]
    simp
  · simp only [List.nil_append]
    rw [hd.2]
    exact randPerm_perm i.conns.length c

/-- Witness for C2 at a one-connection pool whose write fails. -/
theorem write_all_fail_pool_exhausted_witness :
    (Write ⟨none, [], "", "", "db", "", "", "", 5, 0, "",
        [⟨false, false, true⟩]⟩ (fun _ => 0) [⟨"m", true⟩]).2.1 =
      some .poolExhausted ∧
    (Write ⟨none, [], "", "", "db", "", "", "", 5, 0, "",
        [⟨false, false, true⟩]⟩ (fun _ => 0) [⟨"m", true⟩]).1 =
      ⟨none, [], "", "", "db", "", "", "", 5, 0, "", [⟨false, false, true⟩]⟩ ∧
    successCount (Write ⟨none, [], "", "", "db", "", "", "", 5, 0, "",
        [⟨false, false, true⟩]⟩ (fun _ => 0) [⟨"m", true⟩]).2.2 = 0 ∧
    List.Perm (attemptIdxs (Write ⟨none, [], "", "", "db", "", "", "", 5, 0, "",
        [⟨false, false, true⟩]⟩ (fun _ => 0) [⟨"m", true⟩]).2.2)
      (List.range (⟨none, [], "", "", "db", "", "", "", 5, 0, "",
        [⟨false, false, true⟩]⟩ : InfluxDB).conns.length) :=
  write_all_fail_pool_exhausted _ _ _ (by decide) (by decide) (by decide)

/-- C3 counterexample: with an empty pool, one healthy stream endpoint
and a batch holding an invalid record, `Write` returns the encoding
error, yet the trace is non-empty — the reconnection's schema-creation
request contacted the endpoint before the error was produced, so the
error is not returned "before any connection is contacted". -/
theorem write_encoding_error_contacts_endpoint :
    (Write ⟨none, [⟨false, true, true, ⟨true, false, true⟩⟩],
        "", "", "db", "", "", "", 5, 0, "", []⟩ (fun _ => 0) [⟨"m", false⟩]).2.1 =
      some .encodingError ∧
    (Write ⟨none, [⟨false, true, true, ⟨true, false, true⟩⟩],
        "", "", "db", "", "", "", 5, 0, "", []⟩ (fun _ => 0) [⟨"m", false⟩]).2.2 ≠
      [] := by
  constructor
  · rfl
  · decide

/-- C3 (amended): on a non-empty pool, a batch holding a record with an
unsupported field type makes `Write` return the encoding error with the
struct untouched and an empty trace — nothing encoded, nothing written,
no connection contacted.  (With an empty pool the reconnection, including
its schema-creation contacts, runs first; see the counterexample.) -/
theorem write_invalid_record_fails_batch (i : InfluxDB) (c : Nat → Nat) (ms : List Metric)
    (hne : i.conns ≠ []) (hbad : ∃ m ∈ ms, m.pointOk = false) :
    Write i c ms = (i, some .encodingError, []) := by
  have h0 : ¬i.conns.length = 0 := by
    simpa [List.length_eq_zero] using hne
  unfold Write
  rw [if_neg h0, writeCore_err _ _ _ _ _ (encodeBatch_err ms hbad)]

/-- Witness for C3 (amended) at a one-connection pool and a batch with
one invalid record. -/
theorem write_invalid_record_fails_batch_witness :
    Write ⟨none, [], "", "", "db", "", "", "", 5, 0, "",
        [⟨true, false, true⟩]⟩ (fun _ => 0) [⟨"m", false⟩] =
      (⟨none, [], "", "", "db", "", "", "", 5, 0, "", [⟨true, false, true⟩]⟩,
        some .encodingError, []) :=
  write_invalid_record_fails_batch _ _ _ (by decide) (by decide)

/-- C4: when a candidate's write fails with an error classified
"database not found", the dispatcher invokes `createDatabase` on that
same connection (its outcome is recorded in the trace) and then walks
exactly the remaining candidates; and within any `Write` call no pool
index is ever attempted twice. -/
theorem write_not_found_triggers_ensure (conns : List Conn) (n : Nat) (rest : List Nat)
    (i : InfluxDB) (c : Nat → Nat) (ms : List Metric)
    (hfail : (conns.getD n default).writeOk = false)
    (hnf : (conns.getD n default).notFound = true) :
    dispatch conns (n :: rest) =
      ((dispatch conns rest).1,
        Event.writeAttempt n false ::
          Event.recoveryEnsure n (createDatabase (conns.getD n default)) ::
          (dispatch conns rest).2) ∧
    (attemptIdxs (Write i c ms).2.2).Nodup :=
  ⟨dispatch_not_found_step conns n rest hfail hnf, write_attempts_nodup i c ms⟩

/-- Witness for C4: a pool whose single connection fails with
"database not found". -/
theorem write_not_found_triggers_ensure_witness :
    dispatch [⟨false, true, true⟩] (0 :: [1]) =
      ((dispatch [⟨false, true, true⟩] [1]).1,
        Event.writeAttempt 0 false ::
          Event.recoveryEnsure 0
            (createDatabase (([⟨false, true, true⟩] : List Conn).getD 0 default)) ::
          (dispatch [⟨false, true, true⟩] [1]).2) ∧
    (attemptIdxs (Write ⟨none, [], "", "", "db", "", "", "", 5, 0, "",
        [⟨false, true, true⟩]⟩ (fun _ => 0) [⟨"m", true⟩]).2.2).Nodup :=
  write_not_found_triggers_ensure [⟨false, true, true⟩] 0 [1] _ _ _
    (by decide) (by decide)

/-- C5 counterexample: an unparsable UDP URL followed by a healthy
stream URL.  `Connect` returns the configuration error, but the pool
stays empty: the healthy remaining endpoint was NOT built — the failure
aborts the whole construction rather than only excluding the offending
endpoint. -/
theorem connect_bad_url_aborts_build :
    (Connect ⟨none, [⟨true, false, true, ⟨true, false, true⟩⟩,
        ⟨false, true, true, ⟨true, false, true⟩⟩],
        "", "", "db", "", "", "", 5, 0, "", []⟩).2.1 = some .configError ∧
    ((Connect ⟨none, [⟨true, false, true, ⟨true, false, true⟩⟩,
        ⟨false, true, true, ⟨true, false, true⟩⟩],
        "", "", "db", "", "", "", 5, 0, "", []⟩).1).conns = [] := by
  constructor
  · rfl
  · rfl

/-- C5 (amended): when some configured URL cannot be parsed (or its
client cannot be built), `Connect` fails with the configuration error
and aborts the whole build: the pool field is left exactly as it was —
no endpoint of the list, offending or not, is installed. -/
theorem connect_bad_url_config_error (i : InfluxDB)
    (hbad : ∃ u ∈ allUrls i, urlOk u = false) :
    (Connect i).2.1 = some .configError ∧ ((Connect i).1).conns = i.conns :=
  Connect_err i hbad

/-- Witness for C5 (amended) at the two-URL configuration of the
counterexample. -/
theorem connect_bad_url_config_error_witness :
    (Connect ⟨none, [⟨true, false, true, ⟨true, false, true⟩⟩,
        ⟨false, true, true, ⟨true, false, true⟩⟩],
        "", "", "db", "", "", "", 5, 7, "", []⟩).2.1 = some .configError ∧
    ((Connect ⟨none, [⟨true, false, true, ⟨true, false, true⟩⟩,
        ⟨false, true, true, ⟨true, false, true⟩⟩],
        "", "", "db", "", "", "", 5, 7, "", []⟩).1).conns =
      (⟨none, [⟨true, false, true, ⟨true, false, true⟩⟩,
        ⟨false, true, true, ⟨true, false, true⟩⟩],
        "", "", "db", "", "", "", 5, 7, "", []⟩ : InfluxDB).conns :=
  connect_bad_url_config_error _ (by decide)

theorem writeCore_state (i : InfluxDB) (c : Nat → Nat) (ms : List Metric)
    (evs0 : List Event) : (writeCore i c ms evs0).1 = i := by
  cases hE : encodeBatch ms with
  | error e => rw [writeCore_err _ _ _ _ _ hE]
  | ok ps => rw [writeCore_ok _ _ _ _ _ hE]

/-- C6 counterexample: `Write` on an empty pool whose reconnection fails
(an unparsable UDP URL) returns the configuration error of `Connect`,
which is not the aggregate `poolExhausted` failure the claim names. -/
theorem write_empty_pool_connect_error_result :
    (Write ⟨none, [⟨true, false, true, ⟨true, false, true⟩⟩],
        "", "", "db", "", "", "", 5, 0, "", []⟩ (fun _ => 0) []).2.1 =
      some .configError ∧
    some WError.configError ≠ some WError.poolExhausted :=
  ⟨rfl, by decide⟩

/-- C6 (amended): a `Write` call on an empty pool performs one `Connect`
attempt; if `Connect` returns an error, `Write` returns that very error
(a configuration error, not `poolExhausted`); if `Connect` succeeds but
the rebuilt pool is empty, an encodable batch yields `poolExhausted`;
and if `Connect` succeeds, the normal attempt sequence follows on the
rebuilt pool. -/
theorem write_empty_pool_reconnect (i : InfluxDB) (c : Nat → Nat) (ms : List Metric)
    (h0 : i.conns.length = 0) :
    (∀ e, (Connect i).2.1 = some e →
      Write i c ms = ((Connect i).1, some e, (Connect i).2.2)) ∧
    ((Connect i).2.1 = none → ∀ ps, encodeBatch ms = .ok ps →
      ((Connect i).1).conns = [] →
      (Write i c ms).2.1 = some .poolExhausted) ∧
    ((Connect i).2.1 = none →
      ∃ k, attemptIdxs (Write i c ms).2.2 =
        (randPerm (((Connect i).1).conns.length) c).take k) := by
  refine ⟨?_, ?_, ?_⟩
  · intro e he
    rcases Write_cases i c ms with ⟨_, e', he', hw⟩ | ⟨_, he', hw⟩ | ⟨h0', hw⟩
    · rw [he'] at he
      injection he with he
      rw [hw, he]
    · rw [he'] at he
      exact absurd he (by simp)
    · exact absurd h0 h0'
  · intro hnone ps hps hconns
    rcases Write_cases i c ms with ⟨_, e', he', hw⟩ | ⟨_, he', hw⟩ | ⟨h0', hw⟩
    · rw [he'] at hnone
      exact absurd hnone (by simp)
    · rw [hw, writeCore_ok _ _ _ _ _ hps, hconns]
      simp [randPerm, randPermAux, dispatch]
    · exact absurd h0 h0'
  · intro hnone
    rcases Write_cases i c ms with ⟨_, e', he', hw⟩ | ⟨_, he', hw⟩ | ⟨h0', hw⟩
    · rw [he'] at hnone
      exact absurd hnone (by simp)
    · obtain ⟨k, hk⟩ := write_attempts_spec i c ms
      have hstate : (Write i c ms).1 = (Connect i).1 := by
        rw [hw]
        exact writeCore_state _ _ _ _
      rw [hstate] at hk
      exact ⟨k, hk⟩
    · exact absurd h0 h0'

/-- Witness for C6 (amended): the reconnection fails on an unparsable
UDP URL and `Write` surfaces exactly that error. -/
theorem write_empty_pool_reconnect_witness :
    Write ⟨none, [⟨true, false, true, ⟨true, false, true⟩⟩],
        "", "", "db", "", "", "", 5, 0, "", []⟩ (fun _ => 0) [] =
      ((Connect ⟨none, [⟨true, false, true, ⟨true, false, true⟩⟩],
          "", "", "db", "", "", "", 5, 0, "", []⟩).1, some .configError,
        (Connect ⟨none, [⟨true, false, true, ⟨true, false, true⟩⟩],
          "", "", "db", "", "", "", 5, 0, "", []⟩).2.2) :=
  (write_empty_pool_reconnect
      ⟨none, [⟨true, false, true, ⟨true, false, true⟩⟩],
        "", "", "db", "", "", "", 5, 0, "", []⟩ (fun _ => 0) [] rfl).1
    .configError (by decide)

/-- C7: when every URL parses and builds, `Connect` returns success, the
pool holds exactly the UDP connections plus the stream connections whose
construction-time schema creation succeeded (failed ones are excluded
without aborting the build), and one `createDatabase` request is issued
per stream URL, in order, with its outcome. -/
theorem connect_stream_ensure_and_exclusion (i : InfluxDB)
    (hok : ∀ u ∈ allUrls i, urlOk u = true) :
    (Connect i).2.1 = none ∧
    ((Connect i).1).conns = healthyConns (allUrls i) ∧
    (Connect i).2.2 = ensureEvents (allUrls i) 0 :=
  Connect_ok i hok

/-- Witness for C7: one stream endpoint whose schema creation fails —
the build still succeeds and the pool comes out empty. -/
theorem connect_stream_ensure_and_exclusion_witness :
    ((Connect ⟨none, [⟨false, true, true, ⟨true, false, false⟩⟩],
        "", "", "db", "", "", "", 5, 0, "", []⟩).2.1 = none ∧
      ((Connect ⟨none, [⟨false, true, true, ⟨true, false, false⟩⟩],
          "", "", "db", "", "", "", 5, 0, "", []⟩).1).conns =
        healthyConns (allUrls ⟨none, [⟨false, true, true, ⟨true, false, false⟩⟩],
          "", "", "db", "", "", "", 5, 0, "", []⟩) ∧
      (Connect ⟨none, [⟨false, true, true, ⟨true, false, false⟩⟩],
          "", "", "db", "", "", "", 5, 0, "", []⟩).2.2 =
        ensureEvents (allUrls ⟨none, [⟨false, true, true, ⟨true, false, false⟩⟩],
          "", "", "db", "", "", "", 5, 0, "", []⟩) 0) ∧
    healthyConns (allUrls ⟨none, [⟨false, true, true, ⟨true, false, false⟩⟩],
        "", "", "db", "", "", "", 5, 0, "", []⟩) = [] :=
  ⟨connect_stream_ensure_and_exclusion _ (by decide), by decide⟩

/-- C8: the candidate order of a `Write` call is `rand.Perm` of the pool
size for that call's fresh draws: it is a permutation of the pool
indices (each index occurring exactly once); distinct in-range draw
streams give distinct permutations and every permutation is reached by
exactly one draw stream, so uniform independent draws select each
connection first with uniform probability; and the attempts of any
`Write` call walk a prefix of exactly that permutation. -/
theorem write_random_permutation_uniform :
    (∀ (n : Nat) (c : Nat → Nat), List.Perm (randPerm n c) (List.range n)) ∧
    (∀ (n : Nat) (c c' : Nat → Nat), (∀ k, k < n → c k ≤ k) →
      (∀ k, k < n → c' k ≤ k) → randPerm n c = randPerm n c' →
      ∀ k, k < n → c k = c' k) ∧
    (∀ (n : Nat) (p : List Nat), List.Perm p (List.range n) →
      ∃ c, (∀ k, k < n → c k ≤ k) ∧ randPerm n c = p) ∧
    (∀ (i : InfluxDB) (c : Nat → Nat) (ms : List Metric),
      ∃ k, attemptIdxs (Write i c ms).2.2 =
        (randPerm (((Write i c ms).1).conns.length) c).take k) :=
  ⟨randPerm_perm, randPerm_inj, randPerm_surj, write_attempts_spec⟩

/-- Witness for C8: the permutation `[1, 0]` of a two-element pool is
reached by an in-range draw stream. -/
theorem write_random_permutation_uniform_witness :
    ∃ c : Nat → Nat, (∀ k, k < 2 → c k ≤ k) ∧ randPerm 2 c = [1, 0] :=
  write_random_permutation_uniform.2.2.1 2 [1, 0] (by decide)

/-- C9: a `Write` call on an empty pool runs the reconnection — with its
schema-creation contacts — before batch encoding, so a call that returns
the encoding error still leaves the rebuilt pool behind and its trace is
exactly the reconnection's trace. -/
theorem write_connect_before_encode (i : InfluxDB) (c : Nat → Nat)
    (ms : List Metric) (h0 : i.conns.length = 0)
    (hok : (Connect i).2.1 = none) (hbad : ∃ m ∈ ms, m.pointOk = false) :
    (Write i c ms).1 = (Connect i).1 ∧
    (Write i c ms).2.1 = some .encodingError ∧
    (Write i c ms).2.2 = (Connect i).2.2 := by
  rcases Write_cases i c ms with ⟨_, e', he', hw⟩ | ⟨_, he', hw⟩ | ⟨h0', hw⟩
  · rw [he'] at hok
    exact absurd hok (by simp)
  · rw [hw, writeCore_err _ _ _ _ _ (encodeBatch_err ms hbad)]
    exact ⟨rfl, rfl, rfl⟩
  · exact absurd h0 h0'

/-- Witness for C9: one healthy stream endpoint and an invalid record —
the failing call has contacted the endpoint and rebuilt a non-empty
pool. -/
theorem write_connect_before_encode_witness :
    ((Connect ⟨none, [⟨false, true, true, ⟨true, false, true⟩⟩],
        "", "", "db", "", "", "", 5, 0, "", []⟩).2.2 ≠ [] ∧
      ((Connect ⟨none, [⟨false, true, true, ⟨true, false, true⟩⟩],
          "", "", "db", "", "", "", 5, 0, "", []⟩).1).conns ≠ []) ∧
    ((Write ⟨none, [⟨false, true, true, ⟨true, false, true⟩⟩],
        "", "", "db", "", "", "", 5, 0, "", []⟩ (fun _ => 0) [⟨"x", false⟩]).1 =
      (Connect ⟨none, [⟨false, true, true, ⟨true, false, true⟩⟩],
        "", "", "db", "", "", "", 5, 0, "", []⟩).1 ∧
      (Write ⟨none, [⟨false, true, true, ⟨true, false, true⟩⟩],
        "", "", "db", "", "", "", 5, 0, "", []⟩ (fun _ => 0) [⟨"x", false⟩]).2.1 =
        some .encodingError ∧
      (Write ⟨none, [⟨false, true, true, ⟨true, false, true⟩⟩],
        "", "", "db", "", "", "", 5, 0, "", []⟩ (fun _ => 0) [⟨"x", false⟩]).2.2 =
        (Connect ⟨none, [⟨false, true, true, ⟨true, false, true⟩⟩],
          "", "", "db", "", "", "", 5, 0, "", []⟩).2.2) :=
  ⟨⟨by decide, by decide⟩,
    write_connect_before_encode _ _ _ rfl (by decide) (by decide)⟩

/-- C10 counterexample: a configuration whose URL list holds a datagram
URL that does not parse, with the payload bound unset.  `Connect` aborts
before reaching the payload defaulting, so `UDPPayload` is NOT
overwritten with the client default. -/
theorem connect_udp_payload_not_overwritten :
    ((Connect ⟨none, [⟨true, false, true, ⟨true, false, true⟩⟩],
        "", "", "db", "", "", "", 5, 0, "", []⟩).1).UDPPayload = 0 ∧
    (∃ u ∈ allUrls ⟨none, [⟨true, false, true, ⟨true, false, true⟩⟩],
        "", "", "db", "", "", "", 5, 0, "", []⟩, u.isUDP = true) ∧
    (0 : Nat) ≠ udpPayloadSize :=
  ⟨rfl, by decide, by decide⟩

/-- C10 (amended): when the payload bound is unset and construction
reaches a datagram URL whose parse succeeds — no earlier endpoint aborts
the build; nothing is assumed of that URL's own client build or of later
endpoints — `Connect` overwrites `UDPPayload` with the client default;
once the field is non-zero no `Connect` call ever changes it again (so
the defaulted value is reused by every later rebuild); and `Connect`
never modifies any other configuration field. -/
theorem connect_udp_payload_default_behaviour (i : InfluxDB)
    (h0 : i.UDPPayload = 0)
    (hreach : ∃ pre u post, allUrls i = pre ++ u :: post ∧
      (∀ v ∈ pre, urlOk v = true) ∧ u.isUDP = true ∧ u.parseOk = true) :
    ((Connect i).1).UDPPayload = udpPayloadSize ∧
    (∀ j : InfluxDB, j.UDPPayload ≠ 0 →
      ((Connect j).1).UDPPayload = j.UDPPayload) ∧
    (∀ j : InfluxDB, (Connect j).1.URL = j.URL ∧ (Connect j).1.URLs = j.URLs ∧
      (Connect j).1.Username = j.Username ∧ (Connect j).1.Password = j.Password ∧
      (Connect j).1.Database = j.Database ∧ (Connect j).1.UserAgent = j.UserAgent ∧
      (Connect j).1.RetentionPolicy = j.RetentionPolicy ∧
      (Connect j).1.WriteConsistency = j.WriteConsistency ∧
      (Connect j).1.Timeout = j.Timeout ∧ (Connect j).1.Precision = j.Precision) := by
  obtain ⟨pre, u, post, hsplit, hpre, h1, h2⟩ := hreach
  exact ⟨Connect_payload_reached i h0 pre u post hsplit hpre h1 h2,
    fun j hj => Connect_payload_stable j hj,
    fun j => Connect_fields j⟩

/-- Witness for C10 (amended): a datagram URL that parses but whose own
client build fails — `Connect` aborts with the configuration error, yet
the payload field has already been overwritten with the default. -/
theorem connect_udp_payload_default_behaviour_witness :
    ((Connect ⟨none, [⟨true, true, false, ⟨true, false, true⟩⟩],
        "", "", "db", "", "", "", 5, 0, "", []⟩).1).UDPPayload = udpPayloadSize ∧
    (Connect ⟨none, [⟨true, true, false, ⟨true, false, true⟩⟩],
        "", "", "db", "", "", "", 5, 0, "", []⟩).2.1 = some .configError :=
  ⟨(connect_udp_payload_default_behaviour
      ⟨none, [⟨true, true, false, ⟨true, false, true⟩⟩],
        "", "", "db", "", "", "", 5, 0, "", []⟩ rfl
      ⟨[], ⟨true, true, false, ⟨true, false, true⟩⟩, [], rfl, by simp, rfl, rfl⟩).1,
    by decide⟩

end Claims

end Influx
